import Mathlib

/-!
Verification of the completion / diagnostic pipeline of the gserver language
server (`src/gserver/src/server.ts`).

Strings are modelled as lists of characters (`Str`); a document is modelled by
its list of lines, i.e. the result of the source's `text.split(/\r?\n/)`.
JavaScript's `-1` sentinels are kept as `Int` values.  The external collaborators
(`StepsHandler`, `PagesHandler`, the filesystem) are modelled as record-of-function
parameters, exactly as wide as the interface the server uses.
-/

namespace GServer

/-- A JavaScript string, modelled as its list of UTF-16-ish code points. -/
abbrev Str := List Char

/-- String literal helper: the character list of a Lean string literal. -/
def lit (s : String) : Str := s.data

/-- Whitespace test used by `trim`, `split(/\s+/)` and `/\s$/`. -/
def isWs (c : Char) : Bool := c.isWhitespace

/-- JavaScript `String.prototype.trim` (ASCII whitespace suffices here). -/
def trim (s : Str) : Str := ((s.dropWhile isWs).reverse.dropWhile isWs).reverse

/-- Tokeniser behind `beforeCursor.split(/\s+/)` on an already-trimmed string:
maximal runs of non-whitespace characters. -/
def wsTokensAux : Str → Str → List Str
  | [], acc => if acc.isEmpty then [] else [acc.reverse]
  | c :: rest, acc =>
    if isWs c then
      (if acc.isEmpty then wsTokensAux rest [] else acc.reverse :: wsTokensAux rest [])
    else wsTokensAux rest (c :: acc)

/-- All `\s+`-separated tokens of a string. -/
def wsTokens (s : Str) : List Str := wsTokensAux s []

/-- `getWordBeforeCursor` (server.ts:128): trim the text before the cursor and
return the last whitespace-delimited word, or the empty string. -/
def getWordBeforeCursor (line : Str) (char : Nat) : Str :=
  let beforeCursor := trim (line.take char)
  let words := wsTokens beforeCursor
  match words.getLast? with
  | some w => w
  | none => []

/-- JavaScript `content.split(/\r?\n/)`: split on `\n`, consuming a directly
preceding `\r`; a lone `\r` is not a separator. -/
def splitLinesAux : Str → Str → List Str
  | [], acc => [acc.reverse]
  | '\r' :: '\n' :: rest, acc => acc.reverse :: splitLinesAux rest []
  | '\n' :: rest, acc => acc.reverse :: splitLinesAux rest []
  | c :: rest, acc => splitLinesAux rest (c :: acc)

/-- Split a payload into its lines. -/
def splitLines (s : Str) : List Str := splitLinesAux s []

/-- JavaScript `s.split(sep)` for a one-character separator. -/
def splitOnCharAux (sep : Char) : Str → Str → List Str
  | [], acc => [acc.reverse]
  | c :: rest, acc =>
    if c = sep then acc.reverse :: splitOnCharAux sep rest []
    else splitOnCharAux sep rest (c :: acc)

/-- `s.split(" ")` and friends. -/
def splitOnChar (s : Str) (sep : Char) : List Str := splitOnCharAux sep s []

/-- `path.join(a, b)` for the well-formed relative segments the server uses. -/
def pjoin (a b : Str) : Str := a ++ ('/' :: b)

/-- LSP completion item, with exactly the fields the server populates.
`kind` is the raw LSP numeric kind (`Variable = 6`). -/
structure CompletionItem where
  label : Str
  kind : Nat
  detail : Option Str := none
  documentation : Option Str := none
  sortText : Option Str := none
  insertText : Option Str := none
  data : Option Str := none
deriving DecidableEq

/-- An opaque diagnostic produced by one of the external validators. -/
structure Diagnostic where
  tag : Nat
deriving DecidableEq

/-- The captures of `/^Given case (\S+)(?: with taskguide (\S+)| is (\S+))?/`:
group 1 is the handler name, group 2 the `with taskguide` token, group 3 the
`is` token. -/
structure CaseMatch where
  name : Str
  g2 : Option Str
  g3 : Option Str
deriving DecidableEq

/-- `trimmedLine.match(/^Given case (\S+)(?: with taskguide (\S+)| is (\S+))?/)`
(server.ts:177).  The name capture is the maximal non-whitespace run after
`"Given case "`; the optional group tries the `with taskguide` alternative
first, then the `is` alternative, and imposes nothing when both fail (the
pattern is not anchored at the end of the line). -/
def caseHandlerMatch (t : Str) : Option CaseMatch :=
  if (lit ("Given case ")).isPrefixOf t then
    let rest := t.drop (lit ("Given case ")).length
    let name := rest.takeWhile (fun c => !(isWs c))
    if name.isEmpty then none
    else
      let rest2 := rest.drop name.length
      let g2 :=
        if (lit (" with taskguide ")).isPrefixOf rest2 then
          let tok := (rest2.drop (lit (" with taskguide ")).length).takeWhile (fun c => !(isWs c))
          if tok.isEmpty then none else some tok
        else none
      let g3 :=
        match g2 with
        | some _ => none
        | none =>
          if (lit (" is ")).isPrefixOf rest2 then
            let tok := (rest2.drop (lit (" is ")).length).takeWhile (fun c => !(isWs c))
            if tok.isEmpty then none else some tok
          else none
      some { name := name, g2 := g2, g3 := g3 }
  else none

/-- The completion item pushed for a matched case-handler declaration
(server.ts:183-189): when both optional captures are `undefined` the JavaScript
template literal renders the detail as `"Taskguide: undefined"`. -/
def mkCaseItem (m : CaseMatch) : CompletionItem :=
  let taskGuideType : Str :=
    match m.g2 with
    | some x => x
    | none =>
      match m.g3 with
      | some y => y
      | none => lit ("undefined")
  { label := m.name
    kind := 6
    detail := some (lit ("Taskguide: ") ++ taskGuideType)
    sortText := some (lit ("A_"))
    data := some [] }

/-- `line.trim().startsWith('Scenario:')`. -/
def isScenarioLine (l : Str) : Bool := (lit ("Scenario:")).isPrefixOf (trim l)

/-- `line.trim().startsWith('Background:')`. -/
def isBackgroundLine (l : Str) : Bool := (lit ("Background:")).isPrefixOf (trim l)

/-- `trimmedLine.startsWith('Given case')` (server.ts:175). -/
def startsGivenCase (t : Str) : Bool := (lit ("Given case")).isPrefixOf t

/-- The backward scan of server.ts:144-152: from line `i` down to line 0, break
at the first `Scenario:` line (returning it as the scenario start together with
the background accumulator gathered so far); every `Background:` line passed on
the way overwrites the background accumulator.  `-1` sentinels as in the
JavaScript.  An out-of-range index reads as the empty line (the editor only
requests positions inside the document; the JavaScript would throw there). -/
def scanBack (lines : List Str) : Int → Nat → Int × Int
  | b, 0 =>
    if isScenarioLine (lines.getD 0 []) then ((0 : Int), b)
    else ((-1 : Int), if isBackgroundLine (lines.getD 0 []) then (0 : Int) else b)
  | b, i + 1 =>
    if isScenarioLine (lines.getD (i + 1) []) then (((i : Int) + 1), b)
    else scanBack lines (if isBackgroundLine (lines.getD (i + 1) []) then ((i : Int) + 1) else b) i

/-- The forward scan of server.ts:155-161 (`for i in [n, n+rem)`), returning the
first `Scenario:` line or `-1`. -/
def firstScenarioFrom (lines : List Str) : Nat → Nat → Int
  | _, 0 => (-1 : Int)
  | i, rem + 1 =>
    if isScenarioLine (lines.getD i []) then (i : Int)
    else firstScenarioFrom lines (i + 1) rem

/-- `firstScenarioLine` over the whole document. -/
def firstScenarioLine (lines : List Str) : Int := firstScenarioFrom lines 0 (lines.length)

/-- The collection loop of server.ts:170-193 (`for lineNumber in [n, n+rem)`):
a line contributes one item when its trimmed content starts with `Given case`,
its number lies in the scenario interval `[S, L]` or the background interval
`[B, F]`, and the declaration regex matches. -/
def collectFrom (lines : List Str) (S B F : Int) (L : Nat) : Nat → Nat → List CompletionItem
  | _, 0 => []
  | n, rem + 1 =>
    (if startsGivenCase (trim (lines.getD n [])) = true
        ∧ ((S ≤ (n : Int) ∧ (n : Int) ≤ (L : Int)) ∨ (B ≤ (n : Int) ∧ (n : Int) ≤ F)) then
       match caseHandlerMatch (trim (lines.getD n [])) with
       | some m => [mkCaseItem m]
       | none => []
     else []) ++ collectFrom lines S B F L (n + 1) rem

/-- `findCaseHandlers(featureText, currentLine)` (server.ts:136-196): backward
scan for the enclosing scenario / background start, forward scan for the first
scenario line, the background-span adjustment of server.ts:165-167, then the
collection loop over every line of the document. -/
def findCaseHandlers (lines : List Str) (currentLine : Nat) : List CompletionItem :=
  let scanned := scanBack lines (-1 : Int) currentLine
  let scenarioStartLine := scanned.1
  let backgroundStartLine0 := scanned.2
  let f := firstScenarioLine lines
  let backgroundStartLine :=
    if backgroundStartLine0 ≠ (-1 : Int) ∧ f ≠ (-1 : Int) ∧ backgroundStartLine0 < f
    then f - 1 else backgroundStartLine0
  collectFrom lines scenarioStartLine backgroundStartLine f currentLine 0 (lines.length)

/-- Leftmost match of `/Attr="([^"]+)"/` in a line (server.ts:275-284): at each
position, if the literal `Attr="` occurs there and is followed by at least one
non-quote character and then a closing quote, the capture is that maximal
non-quote run; otherwise the search continues one position to the right, as the
JavaScript regex engine does. -/
def findAttrAux (pat : Str) : Str → Option Str
  | [] => none
  | c :: rest =>
    if pat.isPrefixOf (c :: rest) then
      let after := (c :: rest).drop pat.length
      let tok := after.takeWhile (fun d => !(d = '"'))
      if !tok.isEmpty ∧ (after.drop tok.length).head? = some '"' then some tok
      else findAttrAux pat rest
    else findAttrAux pat rest

/-- `regex.exec(line)` capture for the three attribute regexes. -/
def findAttr (pat : Str) (line : Str) : Option Str := findAttrAux pat line

/-- `parseXmlForCompletionItems(xmlContent)` (server.ts:272-310): process the
payload line by line; a line pushes one item exactly when it carries a
`Name="..."` attribute; a `Type` capture becomes the item's `detail` and the
first segment of its `documentation`; a `Title` capture is appended to the
`documentation` only when present. -/
def parseXmlForCompletionItems (xmlContent : Str) : List CompletionItem :=
  (splitLines xmlContent).foldl
    (fun completionItems line =>
      let nameMatch := findAttr (lit ("Name=\"")) line
      let typeMatch := findAttr (lit ("Type=\"")) line
      let titleMatch := findAttr (lit ("Title=\"")) line
      let typeText : Str :=
        match typeMatch with
        | some t => t
        | none => []
      let detailText : Str :=
        (match typeMatch with
         | some _ => lit ("Type: \"") ++ typeText ++ lit ("\" \n")
         | none => []) ++
        (match titleMatch with
         | some t => lit ("Title: \"") ++ t ++ lit ("\"")
         | none => [])
      match nameMatch with
      | some name =>
        completionItems ++
          [{ label := name, detail := some typeText, documentation := some detailText,
             kind := 6, sortText := some (lit ("AA_")), data := some [] }]
      | none => completionItems)
    []

/-- The filesystem interface used by the field cross-referencer:
`fs.existsSync`, `fs.readdirSync`, and `fs.readFileSync`, the last one
returning `none` where the JavaScript call would throw (the `try`/`catch` of
server.ts:255-263 turns that into an empty, logged contribution). -/
structure FS where
  existsDir : Str → Bool
  readdir : Str → List Str
  readFile : Str → Option Str

/-- `line.getLast` whitespace test `/\s$/.test(line)` (server.ts:313). -/
def lineLastCharWs (line : Str) : Bool :=
  match line.getLast? with
  | some c => isWs c
  | none => false

/-- `addCaseHandlersToCompletionItems(line, caseHandlers, allCompletionItems)`
(server.ts:312-320): set each handler's insert text from the whitespace-ness of
the line's last character, then append them all. -/
def addCaseHandlersToCompletionItems (line : Str) (caseHandlers : List CompletionItem)
    (allCompletionItems : List CompletionItem) : List CompletionItem :=
  allCompletionItems ++
    caseHandlers.map (fun item =>
      let itext := if lineLastCharWs line = true then item.label else lit ("case ") ++ item.label
      { item with insertText := some itext })

/-- `extractFieldsForCaseHandlerIfPossible` (server.ts:236-270), transliterated:
filter the handlers whose `label + "."` equals the word before the cursor; use
the first one's detail to derive the file-name stem (`detail.split(" ")[1]`);
resolve the task-guides root (primary `Data/TaskGuides`, else fallback
`TaskGuides`); for every directory whose lower-cased name equals the lower-cased
stem, and every file in it that starts with the stem (case-sensitively) and ends
in `.fields.xml`, append the parsed items of its contents; an unreadable file
(`readFile = none`) is the caught-and-logged branch and contributes nothing.
`detail.split(" ")[1]` is modelled with an empty-string default; the index is
always populated for the details `findCaseHandlers` produces
(`"Taskguide: <token>"`). -/
def extractFieldsForCaseHandlerIfPossible (fs : FS) (workspaceRoot : Str)
    (caseHandlers : List CompletionItem) (wordBeforeCursor : Str)
    (allCompletionItems : List CompletionItem) : List CompletionItem :=
  match caseHandlers.filter (fun h => h.label ++ lit (".") == wordBeforeCursor) with
  | [] => allCompletionItems
  | caseHandler :: _ =>
    match caseHandler.detail with
    | none => allCompletionItems
    | some det =>
      let fileName := (splitOnChar det ' ').getD 1 []
      let taskGuidesFolder := pjoin (pjoin workspaceRoot (lit ("Data"))) (lit ("TaskGuides"))
      let fallbackTaskGuidesFolder := pjoin workspaceRoot (lit ("TaskGuides"))
      let taskGuidesPath :=
        if fs.existsDir taskGuidesFolder = true then taskGuidesFolder
        else fallbackTaskGuidesFolder
      (fs.readdir taskGuidesPath).foldl
        (fun acc dir =>
          if dir.map Char.toLower = fileName.map Char.toLower then
            (fs.readdir (pjoin taskGuidesPath dir)).foldl
              (fun acc2 file =>
                if fileName.isPrefixOf file = true
                   ∧ (lit (".fields.xml")).isSuffixOf file = true then
                  match fs.readFile (pjoin (pjoin taskGuidesPath dir) file) with
                  | some contents => acc2 ++ parseXmlForCompletionItems contents
                  | none => acc2
                else acc2)
              acc
          else acc)
        allCompletionItems

/-- The external steps index, as wide as the interface `server.ts` uses. -/
structure StepsH where
  getCompletion : Str → Nat → List Str → List CompletionItem
  validate : Str → Nat → List Str → Option Diagnostic

/-- The external pages index, as wide as the interface `server.ts` uses. -/
structure PagesH where
  getFeaturePosition : Str → Nat → Bool
  getCompletion : Str → Nat × Nat → List CompletionItem
  validate : Str → Nat → List Diagnostic

/-- The process-wide state read by the handlers: the two `handleSteps` /
`handlePages` configuration predicates, the two (possibly still null) handler
singletons, the workspace root and the filesystem. -/
structure Env where
  workspaceRoot : Str
  stepsConfigured : Bool
  pagesConfigured : Bool
  stepsHandler : Option StepsH
  pagesHandler : Option PagesH
  fs : FS

/-- `pagesPosition(line, char)` (server.ts:75-81). -/
def pagesPosition (env : Env) (line : Str) (char : Nat) : Bool :=
  env.pagesConfigured &&
    (match env.pagesHandler with
     | some h => h.getFeaturePosition line char
     | none => false)

/-- `connection.onCompletion` (server.ts:198-222): compute the request line and
the word before the cursor, the in-scope case handlers, then append in order the
case-handler entries (trigger words `case` / `field`), the field entries, the
page entries (at a page position) and the step entries (when steps are
configured). -/
def onCompletion (env : Env) (docLines : List Str) (posLine posChar : Nat) :
    List CompletionItem :=
  let line := docLines.getD posLine []
  let wordBeforeCursor := getWordBeforeCursor line posChar
  let caseHandlers := findCaseHandlers docLines posLine
  let items0 : List CompletionItem := []
  let items1 :=
    if wordBeforeCursor = lit ("case") ∨ wordBeforeCursor = lit ("field")
    then addCaseHandlersToCompletionItems line caseHandlers items0
    else items0
  let items2 := extractFieldsForCaseHandlerIfPossible env.fs env.workspaceRoot
    caseHandlers wordBeforeCursor items1
  let items3 :=
    if pagesPosition env line posChar = true then
      match env.pagesHandler with
      | some h => items2 ++ h.getCompletion line (posLine, posChar)
      | none => items2
    else items2
  let items4 :=
    if env.stepsConfigured = true then
      match env.stepsHandler with
      | some h => items3 ++ h.getCompletion line posLine docLines
      | none => items3
    else items3
  items4

/-- Enumerate a list with indices starting at `n` (the `(res, line, i)` of the
JavaScript `reduce`). -/
def enumFrom (n : Nat) : List Str → List (Nat × Str)
  | [] => []
  | x :: xs => (n, x) :: enumFrom (n + 1) xs

/-- `validate(text)` (server.ts:322-333): one `reduce` over the lines; if steps
are configured, the steps handler exists and its `validate` returns a
diagnostic, push that single diagnostic; otherwise, if pages are configured and
the pages handler exists, append its diagnostics for the line. -/
def validate (env : Env) (docLines : List Str) : List Diagnostic :=
  (enumFrom 0 docLines).foldl
    (fun res p =>
      match (if env.stepsConfigured = true then
               match env.stepsHandler with
               | some sh => sh.validate p.2 p.1 docLines
               | none => none
             else none) with
      | some diagnostic => res ++ [diagnostic]
      | none =>
        if env.pagesConfigured = true then
          match env.pagesHandler with
          | some ph => res ++ ph.validate p.2 p.1
          | none => res
        else res)
    []

/-! ### Derived and claim-side definitions

The `spec...` definitions below follow the wording of the specification /
claims; the remaining derived definitions are compositional re-statements of
the operational code above, used as the right-hand sides of the
characterization theorems. -/

/-- `concatMap g l`: the concatenation of `g` over `l`. -/
def concatMap (g : α → List β) : List α → List β
  | [] => []
  | x :: xs => g x ++ concatMap g xs

/-- Claim-side pattern of §4.1 step 4: the trimmed content matches the literal
`Given case`, one whitespace-delimited token (the handler name), optionally
followed by one of ` with taskguide <token>`, ` with <token>`, ` is <token>`.
The source applies this pattern with JavaScript `String.match` semantics:
anchored at the start of the line and not at its end.  Since the three suffix
forms sit in an *optional* group and nothing follows them in the pattern, the
suffix can never prevent a match; the line matches exactly when the mandatory
part does — the literal `"Given case "` followed by at least one
non-whitespace character. -/
def specCaseDeclMatches (t : Str) : Bool :=
  (lit ("Given case ")).isPrefixOf t &&
    !((t.drop (lit ("Given case ")).length).takeWhile (fun c => !(isWs c))).isEmpty

/-- Claim-side collection loop for C5: a line is collected exactly when its
trimmed content matches `specCaseDeclMatches` and its number lies in the
scenario span `[S, currentLine]` or the background span `[B, F]`; the item
payload is the one built from the source's regex captures. -/
def specCollectFrom (lines : List Str) (S B F : Int) (L : Nat) : Nat → Nat → List CompletionItem
  | _, 0 => []
  | n, rem + 1 =>
    (if specCaseDeclMatches (trim (lines.getD n [])) = true
        ∧ ((S ≤ (n : Int) ∧ (n : Int) ≤ (L : Int)) ∨ (B ≤ (n : Int) ∧ (n : Int) ≤ F)) then
       match caseHandlerMatch (trim (lines.getD n [])) with
       | some m => [mkCaseItem m]
       | none => []
     else []) ++ specCollectFrom lines S B F L (n + 1) rem

/-- Claim-side description of what `findCaseHandlers` actually returns on a
document without any `Scenario:` / `Background:` header: every declaration on a
line at or before the request line (the amended C2). -/
def specDeclaredUpTo (lines : List Str) (L : Nat) : Nat → Nat → List CompletionItem
  | _, 0 => []
  | n, rem + 1 =>
    (if startsGivenCase (trim (lines.getD n [])) = true ∧ n ≤ L then
       match caseHandlerMatch (trim (lines.getD n [])) with
       | some m => [mkCaseItem m]
       | none => []
     else []) ++ specDeclaredUpTo lines L (n + 1) rem

/-- Claim-side per-line field symbol of §4.2: a line contributes one symbol iff
it carries a `Name="..."` attribute; the `Type` capture is the symbol's detail
and the first segment of its documentation; the `Title` capture is appended to
the documentation only when present. -/
def specFieldSymbolOfLine (line : Str) : Option CompletionItem :=
  match findAttr (lit ("Name=\"")) line with
  | none => none
  | some name =>
    let typeText : Str :=
      match findAttr (lit ("Type=\"")) line with
      | some t => t
      | none => []
    let docText : Str :=
      (match findAttr (lit ("Type=\"")) line with
       | some t => lit ("Type: \"") ++ t ++ lit ("\" \n")
       | none => []) ++
      (match findAttr (lit ("Title=\"")) line with
       | some t => lit ("Title: \"") ++ t ++ lit ("\"")
       | none => [])
    some { label := name, detail := some typeText, documentation := some docText,
           kind := 6, sortText := some (lit ("AA_")), data := some [] }

/-- The insert-text update applied to a case-handler entry by
`addCaseHandlersToCompletionItems`: the bare name when the request line's last
character is whitespace, otherwise `"case " + name`. -/
def withInsertText (line : Str) (item : CompletionItem) : CompletionItem :=
  let itext := if lineLastCharWs line = true then item.label else lit ("case ") ++ item.label
  { item with insertText := some itext }

/-- The resolved task-guides root: `Data/TaskGuides` under the workspace when
it exists, else the fallback `TaskGuides`. -/
def taskGuidesRoot (fs : FS) (workspaceRoot : Str) : Str :=
  if fs.existsDir (pjoin (pjoin workspaceRoot (lit ("Data"))) (lit ("TaskGuides"))) = true
  then pjoin (pjoin workspaceRoot (lit ("Data"))) (lit ("TaskGuides"))
  else pjoin workspaceRoot (lit ("TaskGuides"))

/-- `caseHandler.detail.split(" ")[1]`: the file-name stem bound to a case
handler (the token after `"Taskguide:"`). -/
def stemOf (det : Str) : Str := (splitOnChar det ' ').getD 1 []

/-- Contribution of one directory entry `file` inside a matched task-guide
folder: the parsed items of its contents when the file starts with the stem
(case-sensitively) and ends in `.fields.xml` and is readable; `[]` when the
read fails (the caught-and-logged branch) or the name does not match. -/
def fieldContribution (fs : FS) (folder : Str) (stem : Str) (file : Str) : List CompletionItem :=
  if stem.isPrefixOf file = true ∧ (lit (".fields.xml")).isSuffixOf file = true then
    match fs.readFile (pjoin folder file) with
    | some contents => parseXmlForCompletionItems contents
    | none => []
  else []

/-- Contribution of one directory `dir` under the task-guides root: the
concatenated file contributions when the directory name matches the stem
case-insensitively, else `[]`. -/
def dirContribution (fs : FS) (tgPath : Str) (stem : Str) (dir : Str) : List CompletionItem :=
  if dir.map Char.toLower = stem.map Char.toLower then
    concatMap (fieldContribution fs (pjoin tgPath dir) stem) (fs.readdir (pjoin tgPath dir))
  else []

/-- The full field-entry contribution of a completion request: empty unless
some in-scope handler's `label + "."` equals the word before the cursor and the
first such handler has a detail; otherwise the concatenated directory
contributions for that handler's stem. -/
def fieldItems (fs : FS) (workspaceRoot : Str) (caseHandlers : List CompletionItem)
    (wordBeforeCursor : Str) : List CompletionItem :=
  match caseHandlers.filter (fun h => h.label ++ lit (".") == wordBeforeCursor) with
  | [] => []
  | caseHandler :: _ =>
    match caseHandler.detail with
    | none => []
    | some det =>
      concatMap (dirContribution fs (taskGuidesRoot fs workspaceRoot) (stemOf det))
        (fs.readdir (taskGuidesRoot fs workspaceRoot))

/-- The step diagnostic considered for a line: present only when steps are
configured, the steps handler exists, and its `validate` reports. -/
def stepDiagnosticFor (env : Env) (docLines : List Str) (line : Str) (i : Nat) :
    Option Diagnostic :=
  if env.stepsConfigured = true then
    match env.stepsHandler with
    | some sh => sh.validate line i docLines
    | none => none
  else none

/-- Claim-side per-line diagnostic policy of §4.4: the single step diagnostic
when the step validator reports, otherwise all page diagnostics when pages are
configured, otherwise nothing. -/
def lineDiagnostics (env : Env) (docLines : List Str) (i : Nat) (line : Str) :
    List Diagnostic :=
  match stepDiagnosticFor env docLines line i with
  | some d => [d]
  | none =>
    if env.pagesConfigured = true then
      match env.pagesHandler with
      | some ph => ph.validate line i
      | none => []
    else []

/-! ### Concrete instances used in witnesses and counterexamples -/

/-- A filesystem with nothing in it. -/
def fsEmpty : FS :=
  { existsDir := fun _ => false, readdir := fun _ => [], readFile := fun _ => none }

/-- A session with no steps, no pages and an empty filesystem. -/
def envEmpty : Env :=
  { workspaceRoot := [], stepsConfigured := false, pagesConfigured := false,
    stepsHandler := none, pagesHandler := none, fs := fsEmpty }

/-- A steps index whose validator always reports the given diagnostic. -/
def stepsAlways (d : Diagnostic) : StepsH :=
  { getCompletion := fun _ _ _ => [], validate := fun _ _ _ => some d }

/-- A pages index whose validator always reports the given diagnostics. -/
def pagesConst (ds : List Diagnostic) : PagesH :=
  { getFeaturePosition := fun _ _ => false, getCompletion := fun _ _ => [], validate := fun _ _ => ds }

/-- A session with both indexes configured: the steps validator always fires
with tag 7, the pages validator always reports tag 9. -/
def envSteps : Env :=
  { envEmpty with
    stepsConfigured := true
    pagesConfigured := true
    stepsHandler := some (stepsAlways { tag := 7 })
    pagesHandler := some (pagesConst [{ tag := 9 }]) }

/-- The primary task-guides root for an empty workspace root. -/
def tgRootC : Str := pjoin (pjoin [] (lit ("Data"))) (lit ("TaskGuides"))

/-- A filesystem whose task-guide directory `G` holds two sibling description
files; the first one is unreadable (its read throws), the second parses to one
field named `A`. -/
def fsTwoFiles : FS :=
  { existsDir := fun _ => true
    readdir := fun p =>
      if p = tgRootC then [lit ("G")]
      else if p = pjoin tgRootC (lit ("G")) then [lit ("G.fields.xml"), lit ("Gx.fields.xml")]
      else []
    readFile := fun p =>
      if p = pjoin (pjoin tgRootC (lit ("G"))) (lit ("G.fields.xml")) then none
      else some (lit ("<Field Name=\"A\" />")) }

/-- A filesystem with a capitalised `Login` task-guide directory holding a
capitalised `Login.fields.xml` description file with one field `X`. -/
def fsLogin : FS :=
  { existsDir := fun _ => true
    readdir := fun p => if p = tgRootC then [lit ("Login")] else [lit ("Login.fields.xml")]
    readFile := fun _ => some (lit ("<Field Name=\"X\" />")) }

/-! ### General lemmas -/

/-- A `foldl` whose step appends a per-element contribution is the accumulator
followed by the concatenation of the contributions. -/
theorem foldl_append_form {α β : Type} (f : List β → α → List β) (g : α → List β)
    (hfg : ∀ (a : List β) (x : α), f a x = a ++ g x) :
    ∀ (l : List α) (acc : List β), l.foldl f acc = acc ++ concatMap g l := by
  intro l
  induction l with
  | nil => intro acc; simp [concatMap]
  | cons x xs ih =>
    intro acc
    simp only [List.foldl_cons, concatMap]
    rw [hfg, ih, List.append_assoc]

/-- Concatenating the `toList` of an option-valued function is `filterMap`. -/
theorem concatMap_toList {α β : Type} (f : α → Option β) :
    ∀ l : List α, concatMap (fun x => (f x).toList) l = l.filterMap f := by
  intro l
  induction l with
  | nil => rfl
  | cons x xs ih =>
    cases hx : f x <;> simp [concatMap, hx, ih]

/-! ### Characterization of the attribute extractor -/

/-- The operational extractor agrees line by line with the claim-side
`specFieldSymbolOfLine`. -/
theorem parseXml_eq_filterMap (content : Str) :
    parseXmlForCompletionItems content = (splitLines content).filterMap specFieldSymbolOfLine := by
  have main : ∀ (ls : List Str) (acc : List CompletionItem),
      ls.foldl
        (fun completionItems line =>
          let nameMatch := findAttr (lit ("Name=\"")) line
          let typeMatch := findAttr (lit ("Type=\"")) line
          let titleMatch := findAttr (lit ("Title=\"")) line
          let typeText : Str :=
            match typeMatch with
            | some t => t
            | none => []
          let detailText : Str :=
            (match typeMatch with
             | some _ => lit ("Type: \"") ++ typeText ++ lit ("\" \n")
             | none => []) ++
            (match titleMatch with
             | some t => lit ("Title: \"") ++ t ++ lit ("\"")
             | none => [])
          match nameMatch with
          | some name =>
            completionItems ++
              [{ label := name, detail := some typeText, documentation := some detailText,
                 kind := 6, sortText := some (lit ("AA_")), data := some [] }]
          | none => completionItems)
        acc = acc ++ ls.filterMap specFieldSymbolOfLine := by
    intro ls
    induction ls with
    | nil => intro acc; simp
    | cons l rest ih =>
      intro acc
      simp only [List.foldl_cons, List.filterMap_cons]
      rw [ih]
      cases hn : findAttr (lit ("Name=\"")) l <;>
        cases ht : findAttr (lit ("Type=\"")) l <;>
          cases hti : findAttr (lit ("Title=\"")) l <;>
            simp [specFieldSymbolOfLine, hn, ht, hti]
  unfold parseXmlForCompletionItems
  simpa using main (splitLines content) []

/-! ### Characterization of the field cross-referencer -/

/-- The nested `forEach`/closure accumulation of
`extractFieldsForCaseHandlerIfPossible` is: the incoming accumulator followed
by the compositional `fieldItems` contribution. -/
theorem extractFields_eq (fs : FS) (workspaceRoot : Str) (caseHandlers : List CompletionItem)
    (wordBeforeCursor : Str) (allCompletionItems : List CompletionItem) :
    extractFieldsForCaseHandlerIfPossible fs workspaceRoot caseHandlers wordBeforeCursor
        allCompletionItems
      = allCompletionItems ++ fieldItems fs workspaceRoot caseHandlers wordBeforeCursor := by
  have hinner : ∀ (det : Str) (folder : Str) (acc2 : List CompletionItem) (file : Str),
      (if List.isPrefixOf ((splitOnChar det ' ').getD 1 []) file = true
          ∧ List.isSuffixOf (lit (".fields.xml")) file = true then
         match fs.readFile (pjoin folder file) with
         | some contents => acc2 ++ parseXmlForCompletionItems contents
         | none => acc2
       else acc2)
        = acc2 ++ fieldContribution fs folder (stemOf det) file := by
    intro det folder acc2 file
    by_cases hc : List.isPrefixOf ((splitOnChar det ' ').getD 1 []) file = true
        ∧ List.isSuffixOf (lit (".fields.xml")) file = true
    · have hfc : fieldContribution fs folder (stemOf det) file
          = (match fs.readFile (pjoin folder file) with
             | some contents => parseXmlForCompletionItems contents
             | none => []) := by
        unfold fieldContribution stemOf
        rw [if_pos hc]
      rw [if_pos hc, hfc]
      cases fs.readFile (pjoin folder file) with
      | none => simp
      | some contents => rfl
    · have hfc : fieldContribution fs folder (stemOf det) file = [] := by
        unfold fieldContribution stemOf
        rw [if_neg hc]
      rw [if_neg hc, hfc]
      simp
  have houter : ∀ (det : Str) (acc : List CompletionItem) (dir : Str),
      (if List.map Char.toLower dir = List.map Char.toLower ((splitOnChar det ' ').getD 1 []) then
         (fs.readdir (pjoin (taskGuidesRoot fs workspaceRoot) dir)).foldl
           (fun acc2 file =>
             if List.isPrefixOf ((splitOnChar det ' ').getD 1 []) file = true
                ∧ List.isSuffixOf (lit (".fields.xml")) file = true then
               match fs.readFile (pjoin (pjoin (taskGuidesRoot fs workspaceRoot) dir) file) with
               | some contents => acc2 ++ parseXmlForCompletionItems contents
               | none => acc2
             else acc2)
           acc
       else acc)
        = acc ++ dirContribution fs (taskGuidesRoot fs workspaceRoot) (stemOf det) dir := by
    intro det acc dir
    by_cases hdm : List.map Char.toLower dir = List.map Char.toLower ((splitOnChar det ' ').getD 1 [])
    · rw [if_pos hdm]
      rw [foldl_append_form _ (fieldContribution fs (pjoin (taskGuidesRoot fs workspaceRoot) dir) (stemOf det))
            (fun a x => hinner det (pjoin (taskGuidesRoot fs workspaceRoot) dir) a x)]
      unfold dirContribution
      rw [if_pos (show List.map Char.toLower dir = List.map Char.toLower (stemOf det) from hdm)]
    · unfold dirContribution
      rw [if_neg hdm, if_neg (show ¬ List.map Char.toLower dir = List.map Char.toLower (stemOf det) from hdm)]
      simp
  unfold extractFieldsForCaseHandlerIfPossible fieldItems
  cases hf : caseHandlers.filter (fun h => h.label ++ lit (".") == wordBeforeCursor) with
  | nil => simp
  | cons caseHandler t =>
    cases hd : caseHandler.detail with
    | none => simp only [hd]; simp
    | some det =>
      simp only [hd]
      have htg : (if fs.existsDir (pjoin (pjoin workspaceRoot (lit ("Data"))) (lit ("TaskGuides"))) = true
                  then pjoin (pjoin workspaceRoot (lit ("Data"))) (lit ("TaskGuides"))
                  else pjoin workspaceRoot (lit ("TaskGuides"))) = taskGuidesRoot fs workspaceRoot := rfl
      rw [htg]
      rw [foldl_append_form _ (dirContribution fs (taskGuidesRoot fs workspaceRoot) (stemOf det))
            (fun a x => houter det a x)]

/-! ### Characterization of the completion aggregator -/

/-- `addCaseHandlersToCompletionItems` is the accumulator followed by the
insert-text-updated handlers. -/
theorem addCaseHandlers_eq (line : Str) (caseHandlers : List CompletionItem)
    (acc : List CompletionItem) :
    addCaseHandlersToCompletionItems line caseHandlers acc
      = acc ++ caseHandlers.map (withInsertText line) := rfl

/-- `connection.onCompletion` decomposed into its four ordered segments:
case-handler entries (trigger words), field entries, page entries, step
entries; any segment whose condition fails is `[]`. -/
theorem onCompletion_decomp (env : Env) (docLines : List Str) (posLine posChar : Nat) :
    onCompletion env docLines posLine posChar =
      (if getWordBeforeCursor (docLines.getD posLine []) posChar = lit ("case")
          ∨ getWordBeforeCursor (docLines.getD posLine []) posChar = lit ("field")
       then (findCaseHandlers docLines posLine).map (withInsertText (docLines.getD posLine []))
       else [])
      ++ fieldItems env.fs env.workspaceRoot (findCaseHandlers docLines posLine)
           (getWordBeforeCursor (docLines.getD posLine []) posChar)
      ++ (if pagesPosition env (docLines.getD posLine []) posChar = true then
            match env.pagesHandler with
            | some h => h.getCompletion (docLines.getD posLine []) (posLine, posChar)
            | none => []
          else [])
      ++ (if env.stepsConfigured = true then
            match env.stepsHandler with
            | some h => h.getCompletion (docLines.getD posLine []) posLine docLines
            | none => []
          else []) := by
  unfold onCompletion
  simp only [addCaseHandlers_eq, extractFields_eq]
  cases env.pagesHandler <;> cases env.stepsHandler <;>
    split_ifs <;> simp [List.append_assoc]

/-! ### Characterization of the diagnostic aggregator -/

/-- `validate` is the concatenation over lines of the claim-side per-line
policy `lineDiagnostics`. -/
theorem validate_eq (env : Env) (docLines : List Str) :
    validate env docLines
      = concatMap (fun p => lineDiagnostics env docLines p.1 p.2) (enumFrom 0 docLines) := by
  unfold validate
  rw [foldl_append_form _ (fun p => lineDiagnostics env docLines p.1 p.2) ?hpt]
  · simp
  case hpt =>
    intro a p
    unfold lineDiagnostics stepDiagnosticFor
    cases hs : (if env.stepsConfigured = true then
                  match env.stepsHandler with
                  | some sh => sh.validate p.2 p.1 docLines
                  | none => none
                else none) with
    | some d => simp [hs]
    | none =>
      simp only [hs]
      by_cases hp : env.pagesConfigured = true
      · cases env.pagesHandler <;> simp [hp]
      · simp [hp]

/-! ### Scan and collection lemmas for the scope resolver -/

/-- The empty line is not a scenario header. -/
theorem isScenarioLine_nil : isScenarioLine [] = false := by decide

/-- The empty line is not a background header. -/
theorem isBackgroundLine_nil : isBackgroundLine [] = false := by decide

/-- Indexing past the end of the document yields the empty line. -/
theorem getD_oob (lines : List Str) (i : Nat) (h : lines.length ≤ i) :
    lines.getD i [] = [] := List.getD_eq_default lines [] h

/-- Transitivity of `isPrefixOf`. -/
theorem isPrefixOf_trans {l1 l2 l3 : Str} (h1 : l1.isPrefixOf l2 = true)
    (h2 : l2.isPrefixOf l3 = true) : l1.isPrefixOf l3 = true := by
  rw [List.isPrefixOf_iff_prefix] at h1 h2 ⊢
  exact h1.trans h2

/-- A boolean known to be `false` is not `true`. -/
theorem ne_true_of_eq_false {b : Bool} (h : b = false) : ¬ b = true := by
  intro hb
  rw [h] at hb
  exact Bool.noConfusion hb

/-- When the backward scan meets neither header at or below `L`, it returns a
`-1` scenario start and the untouched background accumulator. -/
theorem scanBack_no_hit (lines : List Str) :
    ∀ (L : Nat) (b0 : Int),
    (∀ i, i ≤ L → isScenarioLine (lines.getD i []) = false) →
    (∀ i, i ≤ L → isBackgroundLine (lines.getD i []) = false) →
    scanBack lines b0 L = ((-1 : Int), b0) := by
  intro L
  induction L with
  | zero =>
    intro b0 hs hb
    simp only [scanBack]
    rw [if_neg (ne_true_of_eq_false (hs 0 (le_refl 0))),
        if_neg (ne_true_of_eq_false (hb 0 (le_refl 0)))]
  | succ L ih =>
    intro b0 hs hb
    simp only [scanBack]
    rw [if_neg (ne_true_of_eq_false (hs (L + 1) (le_refl _))),
        if_neg (ne_true_of_eq_false (hb (L + 1) (le_refl _)))]
    exact ih b0 (fun i hi => hs i (by omega)) (fun i hi => hb i (by omega))

/-- When no scenario header occurs at or below `L` and the document's only
background header is at `b ≤ L`, the backward scan returns `(-1, b)`. -/
theorem scanBack_bg (lines : List Str) (b : Nat)
    (hb : isBackgroundLine (lines.getD b []) = true)
    (honly : ∀ i, i ≠ b → isBackgroundLine (lines.getD i []) = false) :
    ∀ (L : Nat) (b0 : Int), b ≤ L →
    (∀ i, i ≤ L → isScenarioLine (lines.getD i []) = false) →
    scanBack lines b0 L = ((-1 : Int), (b : Int)) := by
  intro L
  induction L with
  | zero =>
    intro b0 hbL hs
    have hb0 : b = 0 := Nat.le_zero.mp hbL
    subst hb0
    simp only [scanBack]
    rw [if_neg (ne_true_of_eq_false (hs 0 (le_refl 0))), if_pos hb]
    simp
  | succ L ih =>
    intro b0 hbL hs
    simp only [scanBack]
    rw [if_neg (ne_true_of_eq_false (hs (L + 1) (le_refl _)))]
    by_cases hbeq : b = L + 1
    · subst hbeq
      rw [if_pos hb]
      rw [scanBack_no_hit lines L ((L : Int) + 1) (fun i hi => hs i (by omega))
            (fun i hi => honly i (by omega))]
      simp
    · rw [if_neg (ne_true_of_eq_false (honly (L + 1) (fun h => hbeq h.symm)))]
      exact ih b0 (by omega) (fun i hi => hs i (by omega))

/-- When some scenario header occurs at or below `L` and every background
header at or below `L` has a scenario header strictly above it (still at or
below `L`), the backward scan breaks at a scenario header and leaves the
background accumulator untouched. -/
theorem scanBack_scen (lines : List Str) :
    ∀ (L : Nat) (b0 : Int),
    (∃ s, s ≤ L ∧ isScenarioLine (lines.getD s []) = true) →
    (∀ i, i ≤ L → isBackgroundLine (lines.getD i []) = true →
      ∃ s, i < s ∧ s ≤ L ∧ isScenarioLine (lines.getD s []) = true) →
    ∃ s, s ≤ L ∧ isScenarioLine (lines.getD s []) = true
      ∧ scanBack lines b0 L = ((s : Int), b0) := by
  intro L
  induction L with
  | zero =>
    intro b0 hex hbg
    obtain ⟨s, hsL, hsc⟩ := hex
    have hs0 : s = 0 := by omega
    subst hs0
    refine ⟨0, le_refl 0, hsc, ?_⟩
    simp only [scanBack]
    rw [if_pos hsc]
    simp
  | succ L ih =>
    intro b0 hex hbg
    by_cases hsc1 : isScenarioLine (lines.getD (L + 1) []) = true
    · refine ⟨L + 1, le_refl _, hsc1, ?_⟩
      simp only [scanBack]
      rw [if_pos hsc1]
      simp
    · have hbg1 : ¬ isBackgroundLine (lines.getD (L + 1) []) = true := by
        intro h
        obtain ⟨s, h1, h2, _⟩ := hbg (L + 1) (le_refl _) h
        omega
      obtain ⟨s, hsL, hsc⟩ := hex
      have hsLe : s ≤ L := by
        rcases Nat.lt_or_ge s (L + 1) with h | h
        · omega
        · exfalso
          have hseq : s = L + 1 := by omega
          subst hseq
          exact hsc1 hsc
      obtain ⟨t, htL, htc, hres⟩ := ih b0 ⟨s, hsLe, hsc⟩ (fun i hi hbi => by
        obtain ⟨u, hu1, hu2, hu3⟩ := hbg i (by omega) hbi
        have huLe : u ≤ L := by
          rcases Nat.lt_or_ge u (L + 1) with h | h
          · omega
          · exfalso
            have hueq : u = L + 1 := by omega
            subst hueq
            exact hsc1 hu3
        exact ⟨u, hu1, huLe, hu3⟩)
      refine ⟨t, by omega, htc, ?_⟩
      simp only [scanBack]
      rw [if_neg hsc1, if_neg hbg1]
      exact hres

/-- The forward scan finds the first scenario header. -/
theorem firstScenarioFrom_eq (lines : List Str) (k : Nat)
    (hk : isScenarioLine (lines.getD k []) = true)
    (hfirst : ∀ j, j < k → isScenarioLine (lines.getD j []) = false) :
    ∀ (rem i : Nat), i ≤ k → k < i + rem → firstScenarioFrom lines i rem = (k : Int) := by
  intro rem
  induction rem with
  | zero => intro i h1 h2; omega
  | succ rem ih =>
    intro i h1 h2
    by_cases hik : i = k
    · subst hik
      simp only [firstScenarioFrom]
      rw [if_pos hk]
    · have hlt : i < k := by omega
      simp only [firstScenarioFrom]
      rw [if_neg (ne_true_of_eq_false (hfirst i hlt))]
      exact ih (i + 1) (by omega) (by omega)

/-- Without any scenario header, the forward scan returns `-1`. -/
theorem firstScenarioFrom_none (lines : List Str)
    (h : ∀ j, isScenarioLine (lines.getD j []) = false) :
    ∀ (rem i : Nat), firstScenarioFrom lines i rem = (-1 : Int) := by
  intro rem
  induction rem with
  | zero => intro i; rfl
  | succ rem ih =>
    intro i
    simp only [firstScenarioFrom]
    rw [if_neg (ne_true_of_eq_false (h i))]
    exact ih (i + 1)

/-- When the document's only `Given case` line is line `d` and it matches the
declaration regex, the collection loop returns exactly the one item, and only
when `d` is inside the window and inside one of the two spans. -/
theorem collectFrom_single (lines : List Str) (S B F : Int) (L d : Nat) (m : CaseMatch)
    (hdecl : startsGivenCase (trim (lines.getD d [])) = true)
    (hm : caseHandlerMatch (trim (lines.getD d [])) = some m)
    (hone : ∀ i, i ≠ d → startsGivenCase (trim (lines.getD i [])) = false) :
    ∀ (rem n : Nat),
    collectFrom lines S B F L n rem =
      if n ≤ d ∧ d < n + rem
         ∧ ((S ≤ (d : Int) ∧ (d : Int) ≤ (L : Int)) ∨ (B ≤ (d : Int) ∧ (d : Int) ≤ F))
      then [mkCaseItem m] else [] := by
  intro rem
  induction rem with
  | zero =>
    intro n
    simp only [collectFrom]
    rw [if_neg (by omega)]
  | succ rem ih =>
    intro n
    simp only [collectFrom]
    rw [ih (n + 1)]
    by_cases hnd : n = d
    · subst hnd
      rw [if_neg (show ¬(n + 1 ≤ n ∧ n < n + 1 + rem
            ∧ ((S ≤ (n : Int) ∧ (n : Int) ≤ (L : Int)) ∨ (B ≤ (n : Int) ∧ (n : Int) ≤ F)))
          by omega)]
      by_cases hsp : ((S ≤ (n : Int) ∧ (n : Int) ≤ (L : Int)) ∨ (B ≤ (n : Int) ∧ (n : Int) ≤ F))
      · rw [if_pos (⟨hdecl, hsp⟩ : startsGivenCase (trim (lines.getD n [])) = true ∧ _),
            if_pos (⟨le_refl n, by omega, hsp⟩ : n ≤ n ∧ n < n + (rem + 1) ∧ _), hm]
        simp
      · rw [if_neg (show ¬(startsGivenCase (trim (lines.getD n [])) = true
              ∧ ((S ≤ (n : Int) ∧ (n : Int) ≤ (L : Int)) ∨ (B ≤ (n : Int) ∧ (n : Int) ≤ F)))
            from fun hcon => hsp hcon.2),
            if_neg (show ¬(n ≤ n ∧ n < n + (rem + 1)
              ∧ ((S ≤ (n : Int) ∧ (n : Int) ≤ (L : Int)) ∨ (B ≤ (n : Int) ∧ (n : Int) ≤ F)))
            from fun hcon => hsp hcon.2.2)]
        simp
    · have hng : ¬(startsGivenCase (trim (lines.getD n [])) = true
          ∧ ((S ≤ (n : Int) ∧ (n : Int) ≤ (L : Int)) ∨ (B ≤ (n : Int) ∧ (n : Int) ≤ F))) :=
        fun hcon => ne_true_of_eq_false (hone n hnd) hcon.1
      rw [if_neg hng]
      simp only [List.nil_append]
      exact if_congr (by omega) rfl rfl

/-- A matched declaration witnesses the mandatory `"Given case "` prefix, hence
the `startsWith('Given case')` test of the collection loop. -/
theorem startsGivenCase_of_match {t : Str} {m : CaseMatch}
    (h : caseHandlerMatch t = some m) : startsGivenCase t = true := by
  unfold caseHandlerMatch at h
  by_cases hp : (lit ("Given case ")).isPrefixOf t = true
  · exact isPrefixOf_trans (by decide) hp
  · rw [if_neg hp] at h
    cases h

/-- The regex succeeds exactly on the lines matched by the claim-side pattern. -/
theorem match_isSome_spec (t : Str) :
    (caseHandlerMatch t).isSome = specCaseDeclMatches t := by
  unfold caseHandlerMatch specCaseDeclMatches
  by_cases hp : (lit ("Given case ")).isPrefixOf t = true
  · by_cases hn : ((t.drop (lit ("Given case ")).length).takeWhile (fun c => !(isWs c))).isEmpty = true
    · simp [hp, hn]
    · simp [hp, hn]
  · simp [hp]

/-- A matched declaration satisfies the claim-side pattern. -/
theorem spec_of_match {t : Str} {m : CaseMatch}
    (h : caseHandlerMatch t = some m) : specCaseDeclMatches t = true := by
  have hs := match_isSome_spec t
  rw [h] at hs
  simpa using hs.symm

/-- The operational collection loop coincides with the claim-side one. -/
theorem collect_eq_specCollect (lines : List Str) (S B F : Int) (L : Nat) :
    ∀ (rem n : Nat), collectFrom lines S B F L n rem = specCollectFrom lines S B F L n rem := by
  intro rem
  induction rem with
  | zero => intro n; rfl
  | succ rem ih =>
    intro n
    simp only [collectFrom, specCollectFrom]
    rw [ih (n + 1)]
    congr 1
    cases hm : caseHandlerMatch (trim (lines.getD n [])) with
    | some m =>
      have h1 : startsGivenCase (trim (lines.getD n [])) = true := startsGivenCase_of_match hm
      have h2 : specCaseDeclMatches (trim (lines.getD n [])) = true := spec_of_match hm
      by_cases hsp : ((S ≤ (n : Int) ∧ (n : Int) ≤ (L : Int)) ∨ (B ≤ (n : Int) ∧ (n : Int) ≤ F))
      · rw [if_pos (⟨h1, hsp⟩ : startsGivenCase (trim (lines.getD n [])) = true ∧ _),
            if_pos (⟨h2, hsp⟩ : specCaseDeclMatches (trim (lines.getD n [])) = true ∧ _)]
      · rw [if_neg (show ¬(startsGivenCase (trim (lines.getD n [])) = true
              ∧ ((S ≤ (n : Int) ∧ (n : Int) ≤ (L : Int)) ∨ (B ≤ (n : Int) ∧ (n : Int) ≤ F)))
            from fun hcon => hsp hcon.2),
            if_neg (show ¬(specCaseDeclMatches (trim (lines.getD n [])) = true
              ∧ ((S ≤ (n : Int) ∧ (n : Int) ≤ (L : Int)) ∨ (B ≤ (n : Int) ∧ (n : Int) ≤ F)))
            from fun hcon => hsp hcon.2)]
    | none => simp

/-- With all three span bounds at the `-1` sentinel, the collection loop
collects exactly the declarations at lines at or before the request line. -/
theorem collect_eq_declaredUpTo (lines : List Str) (L : Nat) :
    ∀ (rem n : Nat),
    collectFrom lines (-1 : Int) (-1 : Int) (-1 : Int) L n rem = specDeclaredUpTo lines L n rem := by
  intro rem
  induction rem with
  | zero => intro n; rfl
  | succ rem ih =>
    intro n
    simp only [collectFrom, specDeclaredUpTo]
    rw [ih (n + 1)]
    congr 1
    exact if_congr (and_congr Iff.rfl (by omega)) rfl rfl

/-- The trim of the empty line carries no `Given case` prefix. -/
theorem startsGivenCase_trim_nil : startsGivenCase (trim []) = false := by decide

/-- `findCaseHandlers` in terms of explicit scan results: once the backward and
forward scans are known, the function is the collection loop over the adjusted
spans. -/
theorem findCaseHandlers_char (lines : List Str) (L : Nat) (Sv Bv : Int)
    (hscan : scanBack lines (-1 : Int) L = (Sv, Bv)) (Fv : Int)
    (hFv : firstScenarioLine lines = Fv) :
    findCaseHandlers lines L =
      collectFrom lines Sv
        (if Bv ≠ (-1 : Int) ∧ Fv ≠ (-1 : Int) ∧ Bv < Fv then Fv - 1 else Bv)
        Fv L 0 lines.length := by
  simp only [findCaseHandlers]
  rw [hscan, hFv]

/-! ### Claim theorems -/

/-- C3: `validate` assigns each line to exactly one validator: it is the
concatenation over lines of the per-line policy `lineDiagnostics`; when the
step validator reports a diagnostic for a line, that line's contribution is
exactly that single diagnostic, whatever the page configuration is (the page
validator is not consulted); when it does not and pages are configured, the
line's contribution is exactly the page validator's list.  No line ever
contributes both. -/
theorem c3_single_owner (env : Env) (docLines : List Str) :
    validate env docLines
      = concatMap (fun p => lineDiagnostics env docLines p.1 p.2) (enumFrom 0 docLines)
    ∧ (∀ (i : Nat) (line : Str) (d : Diagnostic),
        stepDiagnosticFor env docLines line i = some d →
        ∀ (pc : Bool) (ph : Option PagesH),
          lineDiagnostics { env with pagesConfigured := pc, pagesHandler := ph }
            docLines i line = [d])
    ∧ (∀ (i : Nat) (line : Str) (ph : PagesH),
        stepDiagnosticFor env docLines line i = none →
        env.pagesConfigured = true → env.pagesHandler = some ph →
        lineDiagnostics env docLines i line = ph.validate line i) := by
  refine ⟨validate_eq env docLines, ?_, ?_⟩
  · intro i line d hsd pc ph
    have hsd2 : stepDiagnosticFor { env with pagesConfigured := pc, pagesHandler := ph }
        docLines line i = some d := hsd
    unfold lineDiagnostics
    rw [hsd2]
  · intro i line ph hsd hpc hph
    unfold lineDiagnostics
    rw [hsd, if_pos hpc, hph]

/-- C3 witness: with both validators active and the step validator firing, the
line's diagnostics are exactly the single step diagnostic, not the page
diagnostics. -/
theorem c3_single_owner_witness :
    stepDiagnosticFor envSteps [lit ("x")] (lit ("x")) 0 = some { tag := 7 }
    ∧ lineDiagnostics
        { envSteps with
          pagesConfigured := true
          pagesHandler := some (pagesConst [{ tag := 9 }]) } [lit ("x")] 0 (lit ("x"))
      = [{ tag := 7 }] :=
  ⟨by decide,
   (c3_single_owner envSteps [lit ("x")]).2.1 0 (lit ("x")) { tag := 7 } (by decide)
     true (some (pagesConst [{ tag := 9 }]))⟩

/-- C4: every completion request returns exactly the concatenation, in this
fixed order, of case-handler entries (when the prefix word is `case` or
`field`), field entries, page entries (at a page position) and step entries
(when steps are configured); a failed condition contributes `[]` and leaves the
rest unchanged, and the function is total (no error path). -/
theorem c4_completion_order (env : Env) (docLines : List Str) (posLine posChar : Nat) :
    onCompletion env docLines posLine posChar =
      (if getWordBeforeCursor (docLines.getD posLine []) posChar = lit ("case")
          ∨ getWordBeforeCursor (docLines.getD posLine []) posChar = lit ("field")
       then (findCaseHandlers docLines posLine).map (withInsertText (docLines.getD posLine []))
       else [])
      ++ fieldItems env.fs env.workspaceRoot (findCaseHandlers docLines posLine)
           (getWordBeforeCursor (docLines.getD posLine []) posChar)
      ++ (if pagesPosition env (docLines.getD posLine []) posChar = true then
            match env.pagesHandler with
            | some h => h.getCompletion (docLines.getD posLine []) (posLine, posChar)
            | none => []
          else [])
      ++ (if env.stepsConfigured = true then
            match env.stepsHandler with
            | some h => h.getCompletion (docLines.getD posLine []) posLine docLines
            | none => []
          else []) :=
  onCompletion_decomp env docLines posLine posChar

/-- C5: a line of the document is collected as a case-handler declaration
exactly when its trimmed content matches the claim-side declaration pattern
(`specCaseDeclMatches`, i.e. the literal `Given case` followed by a
whitespace-delimited handler name, with the optional `with taskguide` /
`with` / `is` suffix never blocking the match) and its number lies in the
scenario span `[scenarioStart, currentLine]` or the (adjusted) background span
`[backgroundStart, firstScenarioLine]` as computed by the two scans. -/
theorem c5_collection (lines : List Str) (currentLine : Nat) :
    findCaseHandlers lines currentLine =
      specCollectFrom lines
        (scanBack lines (-1 : Int) currentLine).1
        (if (scanBack lines (-1 : Int) currentLine).2 ≠ (-1 : Int)
            ∧ firstScenarioLine lines ≠ (-1 : Int)
            ∧ (scanBack lines (-1 : Int) currentLine).2 < firstScenarioLine lines
         then firstScenarioLine lines - 1 else (scanBack lines (-1 : Int) currentLine).2)
        (firstScenarioLine lines) currentLine 0 lines.length := by
  simp only [findCaseHandlers]
  exact collect_eq_specCollect lines _ _ _ currentLine lines.length 0

/-- C6: the attribute extractor yields exactly one field symbol per
`Name="..."`-bearing line; the `Type` capture is the symbol's detail and the
first segment of its documentation, the `Title` capture is appended only when
present, and a line without a `Name` attribute contributes nothing. -/
theorem c6_attribute_extractor (content : Str) :
    parseXmlForCompletionItems content = (splitLines content).filterMap specFieldSymbolOfLine :=
  parseXml_eq_filterMap content

/-- C7: the field cross-reference never aborts a completion request: it is a
total function equal to the incoming accumulator followed by the per-file
contributions, where a file whose read fails (`readFile = none`, the caught and
logged branch) contributes exactly `[]` while sibling files still contribute
theirs. -/
theorem c7_error_isolated (fs : FS) (root : Str) (hs : List CompletionItem) (w : Str)
    (acc : List CompletionItem) (folder stem file : Str) :
    extractFieldsForCaseHandlerIfPossible fs root hs w acc = acc ++ fieldItems fs root hs w
    ∧ (fs.readFile (pjoin folder file) = none → fieldContribution fs folder stem file = []) := by
  refine ⟨extractFields_eq fs root hs w acc, ?_⟩
  intro hnone
  unfold fieldContribution
  by_cases hc : stem.isPrefixOf file = true ∧ (lit (".fields.xml")).isSuffixOf file = true
  · rw [if_pos hc, hnone]
  · rw [if_neg hc]

/-- C7 witness: the first description file is unreadable and contributes
nothing, yet the sibling file's field `A` still arrives. -/
theorem c7_error_isolated_witness :
    fsTwoFiles.readFile (pjoin (pjoin tgRootC (lit ("G"))) (lit ("G.fields.xml"))) = none
    ∧ fieldContribution fsTwoFiles (pjoin tgRootC (lit ("G"))) (lit ("G"))
        (lit ("G.fields.xml")) = []
    ∧ extractFieldsForCaseHandlerIfPossible fsTwoFiles []
        [mkCaseItem { name := lit ("Foo"), g2 := some (lit ("G")), g3 := none }]
        (lit ("Foo.")) []
      = [] ++ fieldItems fsTwoFiles []
          [mkCaseItem { name := lit ("Foo"), g2 := some (lit ("G")), g3 := none }] (lit ("Foo."))
    ∧ (fieldItems fsTwoFiles []
         [mkCaseItem { name := lit ("Foo"), g2 := some (lit ("G")), g3 := none }]
         (lit ("Foo."))).map (fun it => it.label) = [lit ("A")] := by
  refine ⟨by decide, ?_, ?_, by decide⟩
  · exact (c7_error_isolated fsTwoFiles []
      [mkCaseItem { name := lit ("Foo"), g2 := some (lit ("G")), g3 := none }]
      (lit ("Foo.")) [] (pjoin tgRootC (lit ("G"))) (lit ("G")) (lit ("G.fields.xml"))).2
      (by decide)
  · exact (c7_error_isolated fsTwoFiles []
      [mkCaseItem { name := lit ("Foo"), g2 := some (lit ("G")), g3 := none }]
      (lit ("Foo.")) [] [] [] []).1

/-- C10: when several in-scope handlers match the word before the cursor, the
field extraction depends only on the first matching declaration in document
order: the result equals the extraction for that single handler. -/
theorem c10_first_match (fs : FS) (root : Str) (hs : List CompletionItem) (w : Str)
    (acc : List CompletionItem) (h : CompletionItem) (rest : List CompletionItem)
    (hfil : hs.filter (fun x => x.label ++ lit (".") == w) = h :: rest) :
    extractFieldsForCaseHandlerIfPossible fs root hs w acc
      = extractFieldsForCaseHandlerIfPossible fs root [h] w acc := by
  have hp : (h.label ++ lit (".") == w) = true := by
    have hmem : h ∈ hs.filter (fun x => x.label ++ lit (".") == w) := by
      rw [hfil]
      exact List.mem_cons_self _ _
    exact (List.mem_filter.mp hmem).2
  unfold extractFieldsForCaseHandlerIfPossible
  rw [hfil, show ([h].filter (fun x => x.label ++ lit (".") == w)) = [h]
        by simp [List.filter_cons, hp]]

/-- C10 witness: two same-named handlers bound to different task guides; the
extraction over both equals the extraction over the first alone. -/
theorem c10_first_match_witness :
    ([mkCaseItem { name := lit ("Foo"), g2 := some (lit ("G1")), g3 := none },
      mkCaseItem { name := lit ("Foo"), g2 := some (lit ("G2")), g3 := none }].filter
        (fun x => x.label ++ lit (".") == lit ("Foo.")))
      = mkCaseItem { name := lit ("Foo"), g2 := some (lit ("G1")), g3 := none }
        :: [mkCaseItem { name := lit ("Foo"), g2 := some (lit ("G2")), g3 := none }]
    ∧ extractFieldsForCaseHandlerIfPossible fsTwoFiles []
        [mkCaseItem { name := lit ("Foo"), g2 := some (lit ("G1")), g3 := none },
         mkCaseItem { name := lit ("Foo"), g2 := some (lit ("G2")), g3 := none }]
        (lit ("Foo.")) []
      = extractFieldsForCaseHandlerIfPossible fsTwoFiles []
          [mkCaseItem { name := lit ("Foo"), g2 := some (lit ("G1")), g3 := none }]
          (lit ("Foo.")) [] :=
  ⟨by decide,
   c10_first_match fsTwoFiles []
     [mkCaseItem { name := lit ("Foo"), g2 := some (lit ("G1")), g3 := none },
      mkCaseItem { name := lit ("Foo"), g2 := some (lit ("G2")), g3 := none }]
     (lit ("Foo.")) []
     (mkCaseItem { name := lit ("Foo"), g2 := some (lit ("G1")), g3 := none })
     [mkCaseItem { name := lit ("Foo"), g2 := some (lit ("G2")), g3 := none }]
     (by decide)⟩

/-- C2 counterexample: a one-line document with no `Scenario:` and no
`Background:` header whose only line is a `Given case` declaration; the claim
predicts zero case-handler symbols at request line 0, but `findCaseHandlers`
returns the declaration — the absent-scenario sentinel `-1` makes the scenario
interval test `scenarioStartLine <= lineNumber && lineNumber <= currentLine`
hold for every line at or before the request line. -/
theorem c2_counterexample :
    (∀ i, i < ([lit ("Given case Foo")] : List Str).length →
        isScenarioLine (([lit ("Given case Foo")] : List Str).getD i []) = false
      ∧ isBackgroundLine (([lit ("Given case Foo")] : List Str).getD i []) = false)
    ∧ findCaseHandlers [lit ("Given case Foo")] 0
      = [mkCaseItem { name := lit ("Foo"), g2 := none, g3 := none }]
    ∧ findCaseHandlers [lit ("Given case Foo")] 0 ≠ [] := by decide

/-- C2 (amended): on a document without any `Scenario:` / `Background:`
header, `findCaseHandlers` returns exactly the `Given case` declarations on
lines at or before the request line (the `-1` background sentinel admits no
line, but the `-1` scenario sentinel combined with the `<= currentLine` bound
admits every line up to the request line); in particular the result is empty
only when no such declaration exists at or before the request line. -/
theorem c2_amended (lines : List Str) (currentLine : Nat)
    (hs : ∀ i, i < lines.length → isScenarioLine (lines.getD i []) = false)
    (hb : ∀ i, i < lines.length → isBackgroundLine (lines.getD i []) = false) :
    findCaseHandlers lines currentLine = specDeclaredUpTo lines currentLine 0 lines.length := by
  have hsAll : ∀ i, isScenarioLine (lines.getD i []) = false := by
    intro i
    rcases Nat.lt_or_ge i lines.length with h | h
    · exact hs i h
    · rw [getD_oob lines i h]
      exact isScenarioLine_nil
  have hbAll : ∀ i, isBackgroundLine (lines.getD i []) = false := by
    intro i
    rcases Nat.lt_or_ge i lines.length with h | h
    · exact hb i h
    · rw [getD_oob lines i h]
      exact isBackgroundLine_nil
  rw [findCaseHandlers_char lines currentLine (-1) (-1)
        (scanBack_no_hit lines currentLine (-1) (fun i _ => hsAll i) (fun i _ => hbAll i))
        (-1) (firstScenarioFrom_none lines hsAll lines.length 0),
      if_neg (by omega)]
  exact collect_eq_declaredUpTo lines currentLine lines.length 0

/-- C2 witness: a header-free two-line document with one declaration, at
request line 1. -/
theorem c2_amended_witness :
    findCaseHandlers [lit ("Given case Foo"), lit ("x")] 1
      = specDeclaredUpTo [lit ("Given case Foo"), lit ("x")] 1 0 2
    ∧ specDeclaredUpTo [lit ("Given case Foo"), lit ("x")] 1 0 2
      = [mkCaseItem { name := lit ("Foo"), g2 := none, g3 := none }] :=
  ⟨c2_amended [lit ("Given case Foo"), lit ("x")] 1 (by decide) (by decide), by decide⟩

/-- C8 counterexample: a request on the line `case more` at character 5.  The
character immediately preceding the cursor (index 4) is a space, so the claim
predicts the bare handler name as insert text; but the code tests the *last*
character of the whole line (`/\s$/.test(line)`), which is `e`, so the
returned entry's insert text is `case Foo`. -/
theorem c8_counterexample :
    isWs ((([lit ("Given case Foo with taskguide G"), lit ("case more")] : List Str).getD 1
        []).getD 4 'x') = true
    ∧ getWordBeforeCursor (lit ("case more")) 5 = lit ("case")
    ∧ (onCompletion envEmpty [lit ("Given case Foo with taskguide G"), lit ("case more")] 1 5).map
        (fun it => it.insertText)
      = [some (lit ("case Foo"))] := by decide

/-- C8 (amended): for a request whose prefix word is `case` or `field`, the
leading case-handler entries of the returned list are exactly the in-scope
handlers with insert text determined by the *line's last character*: the bare
handler name when the request line ends in whitespace, otherwise
`"case " + name`. -/
theorem c8_amended (env : Env) (docLines : List Str) (posLine posChar : Nat)
    (htrig : getWordBeforeCursor (docLines.getD posLine []) posChar = lit ("case")
      ∨ getWordBeforeCursor (docLines.getD posLine []) posChar = lit ("field")) :
    (onCompletion env docLines posLine posChar).take (findCaseHandlers docLines posLine).length
      = (findCaseHandlers docLines posLine).map (withInsertText (docLines.getD posLine [])) := by
  rw [onCompletion_decomp, if_pos htrig, List.append_assoc, List.append_assoc,
      show (findCaseHandlers docLines posLine).length
        = ((findCaseHandlers docLines posLine).map
            (withInsertText (docLines.getD posLine []))).length
      from (List.length_map _ _).symm]
  exact List.take_left _ _

/-- C8 witness: a line ending in a space yields the bare name as insert text. -/
theorem c8_amended_witness :
    (onCompletion envEmpty [lit ("Given case Foo with taskguide G"), lit ("case ")] 1 5).take
        (findCaseHandlers [lit ("Given case Foo with taskguide G"), lit ("case ")] 1).length
      = (findCaseHandlers [lit ("Given case Foo with taskguide G"), lit ("case ")] 1).map
          (withInsertText (([lit ("Given case Foo with taskguide G"),
            lit ("case ")] : List Str).getD 1 []))
    ∧ (findCaseHandlers [lit ("Given case Foo with taskguide G"), lit ("case ")] 1).map
          (withInsertText (([lit ("Given case Foo with taskguide G"),
            lit ("case ")] : List Str).getD 1 []))
      = [{ mkCaseItem { name := lit ("Foo"), g2 := some (lit ("G")), g3 := none } with
           insertText := some (lit ("Foo")) }] :=
  ⟨c8_amended envEmpty [lit ("Given case Foo with taskguide G"), lit ("case ")] 1 5
     (Or.inl (by decide)), by decide⟩

/-- C9 counterexample: the handler's bound target is `login`; the directory
`Login` matches it case-insensitively (as the claim says), the description
file `Login.fields.xml` also matches the target case-insensitively and carries
the structured-field suffix, so the claim predicts its field `X` in the
result — but the code's `file.startsWith(fileName)` test is case-sensitive and
the extraction returns nothing. -/
theorem c9_counterexample :
    (lit ("Login")).map Char.toLower = (lit ("login")).map Char.toLower
    ∧ (lit ("login")).isPrefixOf ((lit ("Login.fields.xml")).map Char.toLower) = true
    ∧ (lit (".fields.xml")).isSuffixOf (lit ("Login.fields.xml")) = true
    ∧ extractFieldsForCaseHandlerIfPossible fsLogin []
        [mkCaseItem { name := lit ("Foo"), g2 := some (lit ("login")), g3 := none }]
        (lit ("Foo.")) [] = [] := by decide

/-- C9 (amended): the directory lookup is case-insensitive
(lower-cased directory name equals the lower-cased stem) while the description
*file* lookup is case-sensitive (the file name must start with the stem exactly
as written, besides the `.fields.xml` suffix); the returned field names are the
verbatim `Name="..."` captures of the file, preserving their case. -/
theorem c9_amended (fs : FS) (root : Str) (hs : List CompletionItem) (w : Str)
    (acc : List CompletionItem) :
    extractFieldsForCaseHandlerIfPossible fs root hs w acc
      = acc ++
        (match hs.filter (fun h => h.label ++ lit (".") == w) with
         | [] => []
         | h :: _ =>
           match h.detail with
           | none => []
           | some det =>
             concatMap (fun dir =>
               if dir.map Char.toLower = (stemOf det).map Char.toLower then
                 concatMap (fun file =>
                   if (stemOf det).isPrefixOf file = true
                      ∧ (lit (".fields.xml")).isSuffixOf file = true then
                     match fs.readFile (pjoin (pjoin (taskGuidesRoot fs root) dir) file) with
                     | some contents => parseXmlForCompletionItems contents
                     | none => []
                   else [])
                   (fs.readdir (pjoin (taskGuidesRoot fs root) dir))
               else [])
               (fs.readdir (taskGuidesRoot fs root)))
    ∧ (∀ content : Str,
        (parseXmlForCompletionItems content).map (fun it => it.label)
          = (splitLines content).filterMap (findAttr (lit ("Name=\"")))) := by
  constructor
  · rw [extractFields_eq]
    rfl
  · intro content
    rw [parseXml_eq_filterMap]
    generalize splitLines content = ls
    induction ls with
    | nil => rfl
    | cons l rest ih =>
      rw [List.filterMap_cons, List.filterMap_cons]
      cases hn : findAttr (lit ("Name=\"")) l with
      | none => simp [specFieldSymbolOfLine, hn, ih]
      | some name => simp [specFieldSymbolOfLine, hn, ih]

/-- C1 counterexample, in two parts.  First: the document
`["Background:", "Given case Foo with taskguide G", "", "Scenario: s1"]` has a
Background block followed by its first Scenario at line `k = 3` and a
declaration at line 1 inside the Background, yet a request at line 0 — inside
`[0, k-1]` — returns no handler (the span adjustment
`backgroundStartLine = firstScenarioLine - 1` shrinks the background interval
to `[2, 3]`, and the backward scan found the Background, so the scenario
sentinel path does not rescue it).  Second: in the document with two
Scenarios, the Background declaration *is* returned for a request inside the
later, unrelated Scenario (line 4, inside `Scenario: s2`), contradicting the
claim's exclusion. -/
theorem c1_counterexample :
    isBackgroundLine (([lit ("Background:"), lit ("Given case Foo with taskguide G"),
        lit (""), lit ("Scenario: s1")] : List Str).getD 0 []) = true
    ∧ firstScenarioLine [lit ("Background:"), lit ("Given case Foo with taskguide G"),
        lit (""), lit ("Scenario: s1")] = 3
    ∧ startsGivenCase (trim (([lit ("Background:"),
        lit ("Given case Foo with taskguide G"), lit (""),
        lit ("Scenario: s1")] : List Str).getD 1 [])) = true
    ∧ findCaseHandlers [lit ("Background:"), lit ("Given case Foo with taskguide G"),
        lit (""), lit ("Scenario: s1")] 0 = []
    ∧ findCaseHandlers [lit ("Background:"), lit ("Given case Foo with taskguide G"),
        lit ("Scenario: s1"), lit ("Scenario: s2"), lit ("Given x")] 4
      = [mkCaseItem { name := lit ("Foo"), g2 := some (lit ("G")), g3 := none }] := by decide

/-- C1 (amended): for a document whose only Background header is at line `b`,
whose first Scenario header is at line `k` (no Scenario before it, `b < k`),
and whose only `Given case` declaration is at line `d` with `b < d < k`, the
declaration is returned by `findCaseHandlers`
(i) for a request at any line `L < b` (the backward scan sees no header, and
the `-1` background sentinel together with `firstScenarioLine` admits the
declaration),
(ii) for a request at any line `L` with `d ≤ L < k` (the `-1` scenario
sentinel admits every line up to the request line),
(iv) for a request at any line `L ≥ k` — including lines inside later,
unrelated Scenarios (the backward scan breaks at a Scenario header, leaving
the background sentinel `-1`, whose adjusted span `[-1, k]` contains `d`);
but (iii) NOT for a request at a line `L` with `b ≤ L < d` when `d + 1 < k`:
there the adjusted background span `[k-1, k]` misses `d` and the scenario
interval `[-1, L]` ends before `d`. -/
theorem c1_amended (lines : List Str) (b d k : Nat) (m : CaseMatch)
    (hbg : isBackgroundLine (lines.getD b []) = true)
    (honly : ∀ i, i < lines.length → i ≠ b → isBackgroundLine (lines.getD i []) = false)
    (hk : isScenarioLine (lines.getD k []) = true)
    (hfirst : ∀ i, i < k → isScenarioLine (lines.getD i []) = false)
    (hbd : b < d) (hdk : d < k) (hklen : k < lines.length)
    (hdecl : startsGivenCase (trim (lines.getD d [])) = true)
    (hm : caseHandlerMatch (trim (lines.getD d [])) = some m)
    (hone : ∀ i, i < lines.length → i ≠ d → startsGivenCase (trim (lines.getD i [])) = false) :
    (∀ L, L < b → findCaseHandlers lines L = [mkCaseItem m])
    ∧ (∀ L, d ≤ L → L < k → findCaseHandlers lines L = [mkCaseItem m])
    ∧ (∀ L, b ≤ L → L < d → d + 1 < k → findCaseHandlers lines L = [])
    ∧ (∀ L, k ≤ L → findCaseHandlers lines L = [mkCaseItem m]) := by
  have honlyAll : ∀ i, i ≠ b → isBackgroundLine (lines.getD i []) = false := by
    intro i hib
    rcases Nat.lt_or_ge i lines.length with h | h
    · exact honly i h hib
    · rw [getD_oob lines i h]
      exact isBackgroundLine_nil
  have honeAll : ∀ i, i ≠ d → startsGivenCase (trim (lines.getD i [])) = false := by
    intro i hid
    rcases Nat.lt_or_ge i lines.length with h | h
    · exact hone i h hid
    · rw [getD_oob lines i h]
      exact startsGivenCase_trim_nil
  have hF : firstScenarioLine lines = (k : Int) :=
    firstScenarioFrom_eq lines k hk hfirst lines.length 0 (by omega) (by omega)
  have hcollect : ∀ (S B F : Int) (L : Nat),
      collectFrom lines S B F L 0 lines.length =
        if 0 ≤ d ∧ d < 0 + lines.length
           ∧ ((S ≤ (d : Int) ∧ (d : Int) ≤ (L : Int)) ∨ (B ≤ (d : Int) ∧ (d : Int) ≤ F))
        then [mkCaseItem m] else [] :=
    fun S B F L => collectFrom_single lines S B F L d m hdecl hm honeAll lines.length 0
  refine ⟨?_, ?_, ?_, ?_⟩
  · intro L hLb
    rw [findCaseHandlers_char lines L (-1) (-1)
          (scanBack_no_hit lines L (-1) (fun i hi => hfirst i (by omega))
            (fun i _ => honlyAll i (by omega))) (k : Int) hF,
        if_neg (by omega), hcollect (-1) (-1) (k : Int) L, if_pos (by omega)]
  · intro L hdL hLk
    rw [findCaseHandlers_char lines L (-1) (b : Int)
          (scanBack_bg lines b hbg honlyAll L (-1) (by omega)
            (fun i hi => hfirst i (by omega))) (k : Int) hF,
        if_pos (by omega), hcollect (-1) ((k : Int) - 1) (k : Int) L, if_pos (by omega)]
  · intro L hbL hLd hdk1
    rw [findCaseHandlers_char lines L (-1) (b : Int)
          (scanBack_bg lines b hbg honlyAll L (-1) (by omega)
            (fun i hi => hfirst i (by omega))) (k : Int) hF,
        if_pos (by omega), hcollect (-1) ((k : Int) - 1) (k : Int) L, if_neg (by omega)]
  · intro L hkL
    obtain ⟨s, hsL, hssc, hscan⟩ := scanBack_scen lines L (-1) ⟨k, hkL, hk⟩
      (fun i hi hbi => by
        have hib : i = b := by
          by_contra hne
          rw [honlyAll i hne] at hbi
          exact Bool.noConfusion hbi
        subst hib
        exact ⟨k, by omega, hkL, hk⟩)
    rw [findCaseHandlers_char lines L (s : Int) (-1) hscan (k : Int) hF,
        if_neg (by omega), hcollect (s : Int) (-1) (k : Int) L, if_pos (by omega)]

/-- C1 witness: in the document
`["Background:", "Given case Foo with taskguide G", "", "Scenario: s1", "tail"]`
with `b = 0`, `d = 1`, `k = 3`, a request at the declaration line returns the
Background handler. -/
theorem c1_amended_witness :
    findCaseHandlers [lit ("Background:"), lit ("Given case Foo with taskguide G"),
        lit (""), lit ("Scenario: s1"), lit ("tail")] 1
      = [mkCaseItem { name := lit ("Foo"), g2 := some (lit ("G")), g3 := none }] :=
  (c1_amended [lit ("Background:"), lit ("Given case Foo with taskguide G"),
      lit (""), lit ("Scenario: s1"), lit ("tail")] 0 1 3
    { name := lit ("Foo"), g2 := some (lit ("G")), g3 := none }
    (by decide) (by decide) (by decide) (by decide) (by decide) (by decide) (by decide)
    (by decide) (by decide) (by decide)).2.1 1 (by decide) (by decide)

end GServer
